import Mathlib

/-
Verification of the autochemlab PDF chemical-parser (src/parser.py) against its
natural-language specification.

Text is modelled as `List Char`.  Python regular-expression substitutions are
embedded as structural scans over character lists that reproduce the
leftmost, non-overlapping semantics of `re.sub`.  The Python regex class `\d`
is modelled as the ASCII digits (the chemical names handled by the tool are
ASCII), and `[a-zA-Z]` as the ASCII letters.  Remote HTTP calls are modelled
by response oracles, and Python exceptions by `Except` results.
-/

deriving instance DecidableEq for Except

namespace AutoChem

/-! ## Character classes -/

/-- ASCII digit, the model of the regex class `\d`. -/
def isDigitC (c : Char) : Bool := '0' ≤ c && c ≤ '9'

/-- ASCII letter, the model of the regex class `[a-zA-Z]`. -/
def isAlphaC (c : Char) : Bool := ('a' ≤ c && c ≤ 'z') || ('A' ≤ c && c ≤ 'Z')

/-- Characters matched by the class `[\d,]` of the locant-stripping regex. -/
def isLocantC (c : Char) : Bool := isDigitC c || c == ','

/-! ## 4.2 Name Extractor (`extract_chemical_names`)

Source: `[field.replace("Hazards", "") for field in fields if field.startswith("Hazards")]`.
`str.replace` removes every leftmost, non-overlapping occurrence of the marker
(the pattern `"Hazards"` cannot overlap itself). -/

/-- The literal marker `"Hazards"`. -/
def hazardsMarker : List Char := "Hazards".data

/-- Embedding of `field.replace("Hazards", "")`: removes every occurrence of
the marker, scanning left to right. -/
def replaceHazards : List Char → List Char
  | a :: b :: c :: d :: e :: f :: g :: rest =>
    if a == 'H' && b == 'a' && c == 'z' && d == 'a' && e == 'r' && f == 'd' && g == 's' then
      replaceHazards rest
    else
      a :: replaceHazards (b :: c :: d :: e :: f :: g :: rest)
  | s => s

/-- Embedding of `extract_chemical_names` (src/parser.py lines 25-26). -/
def extract_chemical_names (fields : List (List Char)) : List (List Char) :=
  (fields.filter (fun f => hazardsMarker.isPrefixOf f)).map replaceHazards

/-- Specification-side generic embedding of Python `str.replace(old, rep)`
for a non-empty pattern: replace every leftmost, non-overlapping occurrence
of `old` by `rep`.  (For an empty `old` this is the identity; Python there
would interleave `rep`, but the tool only ever replaces `"Hazards"`.) -/
def pyReplace (old rep : List Char) (s : List Char) : List Char :=
  match s with
  | [] => []
  | c :: cs =>
    if old.isPrefixOf (c :: cs) && !old.isEmpty then
      rep ++ pyReplace old rep (cs.drop (old.length - 1))
    else c :: pyReplace old rep cs
termination_by s.length
decreasing_by
  · simp only [List.length_drop, List.length_cons]
    omega
  · simp only [List.length_cons]
    omega

/-! ## 4.3 Locant Normalizer (`parse_locants`)

Five ordered substitutions, each embedded with the leftmost non-overlapping
scan-and-resume semantics of `re.sub`. -/

/-- Rule 1: `re.sub(r'(\d)(\d)', r'\1,\2', s)` — comma between adjacent digits. -/
def sub1 : List Char → List Char
  | a :: b :: rest =>
    if isDigitC a && isDigitC b then a :: ',' :: b :: sub1 rest
    else a :: sub1 (b :: rest)
  | s => s

/-- Rule 2: `re.sub(r'(\d)([a-zA-Z])|([a-zA-Z])(\d)', r'\1\3-\2\4', s)` —
hyphen between a digit and an adjacent letter, in either order. -/
def sub2 : List Char → List Char
  | a :: b :: rest =>
    if (isDigitC a && isAlphaC b) || (isAlphaC a && isDigitC b) then a :: '-' :: b :: sub2 rest
    else a :: sub2 (b :: rest)
  | s => s

/-- Rule 3: `re.sub(r'(\d) ([a-zA-Z])', r'\1-\2', s)` — digit, space, letter
becomes digit, hyphen, letter. -/
def sub3 : List Char → List Char
  | a :: b :: c :: rest =>
    if isDigitC a && b == ' ' && isAlphaC c then a :: '-' :: c :: sub3 rest
    else a :: sub3 (b :: c :: rest)
  | s => s

/-- Rule 4 scanner: `re.sub(r'([a-zA-Z]) (hex+)', r'\1\2', s)`.  The flag is
true while resuming inside the greedy run of `x`s consumed by `x+`, where no
new match may start. -/
def sub4go : Bool → List Char → List Char
  | skip, a :: b :: c :: d :: e :: rest =>
    if skip && a == 'x' then a :: sub4go true (b :: c :: d :: e :: rest)
    else if isAlphaC a && b == ' ' && c == 'h' && d == 'e' && e == 'x' then
      a :: c :: d :: e :: sub4go true rest
    else a :: sub4go false (b :: c :: d :: e :: rest)
  | skip, a :: rest =>
    if skip && a == 'x' then a :: sub4go true rest else a :: sub4go false rest
  | _, [] => []

/-- Rule 4: collapse letter, space, `hex…` into one token. -/
def sub4 (s : List Char) : List Char := sub4go false s

/-- Rule 5: `re.sub("hexanes", "hexane", s)`. -/
def sub5 : List Char → List Char
  | a :: b :: c :: d :: e :: f :: g :: rest =>
    if a == 'h' && b == 'e' && c == 'x' && d == 'a' && e == 'n' && f == 'e' && g == 's' then
      'h' :: 'e' :: 'x' :: 'a' :: 'n' :: 'e' :: sub5 rest
    else a :: sub5 (b :: c :: d :: e :: f :: g :: rest)
  | s => s

/-- Embedding of `parse_locants` (src/parser.py lines 28-35): the five rules
applied in order. -/
def parse_locants (compound : List Char) : List Char :=
  sub5 (sub4 (sub3 (sub2 (sub1 compound))))

/-! ### Pattern predicates for the idempotence property

These formalize the side conditions of the idempotence claim: presence of an
adjacent bare digit pair (rule 1's pattern), of a digit-letter or
letter-digit adjacency (rule 2's pattern), of a digit-space-letter triple
(rule 3's pattern), of a spaced-hex pattern (rule 4's pattern), and of the
substring `"hexanes"` (rule 5's pattern). -/

/-- The name contains two adjacent digits. -/
def hasR1 : List Char → Bool
  | a :: b :: rest => (isDigitC a && isDigitC b) || hasR1 (b :: rest)
  | _ => false

/-- The name contains a digit-letter or letter-digit adjacency. -/
def hasR2 : List Char → Bool
  | a :: b :: rest =>
    ((isDigitC a && isAlphaC b) || (isAlphaC a && isDigitC b)) || hasR2 (b :: rest)
  | _ => false

/-- The name contains a digit, a space, then a letter. -/
def hasR3 : List Char → Bool
  | a :: b :: c :: rest => (isDigitC a && b == ' ' && isAlphaC c) || hasR3 (b :: c :: rest)
  | _ => false

/-- The name contains a letter, a space, then `"hex"`. -/
def hasR4 : List Char → Bool
  | a :: b :: c :: d :: e :: rest =>
    (isAlphaC a && b == ' ' && c == 'h' && d == 'e' && e == 'x')
      || hasR4 (b :: c :: d :: e :: rest)
  | _ => false

/-- The name contains the substring `"hexanes"`. -/
def hasR5 : List Char → Bool
  | a :: b :: c :: d :: e :: f :: g :: rest =>
    (a == 'h' && b == 'e' && c == 'x' && d == 'a' && e == 'n' && f == 'e' && g == 's')
      || hasR5 (b :: c :: d :: e :: f :: g :: rest)
  | _ => false

/-- Pointwise relation between a string and a rewriting of it in which some
spaces were replaced by hyphens and nothing else changed; `sub3` produces
exactly such a rewriting of its input. -/
def spaceHyph : List Char → List Char → Prop
  | [], [] => True
  | a :: xs, b :: ys => (b = a ∨ (a = ' ' ∧ b = '-')) ∧ spaceHyph xs ys
  | _, _ => False

/-! ## 4.4 Identifier Resolver (`retrieve_CASRN`, `retrieve_all_CASRNs`)

The HTTP call is modelled by a response oracle.  Python exceptions are
modelled by `Except PyError`: `retrieve_CASRN` catches only `ValueError`
(raised explicitly on a zero count, and by `response.json()` on a malformed
body, since `json.JSONDecodeError` subclasses `ValueError`); a failed request
or an error HTTP status raises `requests.exceptions.RequestException`, which
is not a `ValueError` and therefore propagates. -/

/-- The Python exceptions that can escape the embedded functions. -/
inductive PyError
  /-- `requests.exceptions.RequestException` (includes `HTTPError`). -/
  | requestException
  /-- `ValueError`. -/
  | valueError
  /-- `IndexError` (`results[0]` on an empty list). -/
  | indexError
  deriving DecidableEq, Repr

/-- Outcome of one GET against the search endpoint for one query string. -/
inductive SearchResp
  /-- `requests.get` raised (network failure). -/
  | reqError
  /-- `raise_for_status()` raised `HTTPError` (error HTTP status). -/
  | httpError
  /-- `response.json()` raised `JSONDecodeError` (malformed body), a subclass
  of `ValueError`. -/
  | badJson
  /-- Parsed JSON body with its `count` field and the `rn` field of each
  entry of its `results` sequence. -/
  | ok (count : Nat) (results : List (List Char))
  deriving DecidableEq, Repr

/-- Embedding of `retrieve_CASRN` (src/parser.py lines 37-48), as a function
of the response received for the query.  `Except.ok none` is Python `None`
(the swallowed-failure marker); `Except.error` is a propagating exception. -/
def retrieve_CASRN (resp : SearchResp) : Except PyError (Option (List Char)) :=
  match resp with
  | .reqError => .error .requestException
  | .httpError => .error .requestException
  | .badJson => .ok none
  | .ok count results =>
    if count > 0 then
      match results with
      | r :: _ => .ok (some r)
      | [] => .error .indexError
    else .ok none

/-- Embedding of `re.sub(r"^[\d,]+-", "", s)`: strip one leading run of
digits/commas followed by a hyphen (the anchored pattern matches at most
once). -/
def stripLeadingLocants (s : List Char) : List Char :=
  match s.takeWhile isLocantC, s.dropWhile isLocantC with
  | _ :: _, '-' :: rest => rest
  | _, _ => s

/-- One iteration of the two-attempt loop body of `retrieve_all_CASRNs` for a
single name: result of the loop, and the final value held in `chemicals[idx]`
(the code overwrites that slot with the stripped name before the retry). -/
def resolveOne (lookup : List Char → SearchResp) (chemical : List Char) :
    Except PyError (List Char) × List Char :=
  match retrieve_CASRN (lookup chemical) with
  | .error e => (.error e, chemical)
  | .ok (some c) => (.ok c, chemical)
  | .ok none =>
    let stripped := stripLeadingLocants chemical
    match retrieve_CASRN (lookup stripped) with
    | .error e => (.error e, stripped)
    | .ok (some c) => (.ok c, stripped)
    | .ok none => (.error .valueError, stripped)

/-- Embedding of `retrieve_all_CASRNs` (src/parser.py lines 50-67): first
component is the returned identifier list (or the propagating exception),
second component is the final state of the caller's `chemicals` list, which
the function mutates in place on retries. -/
def retrieve_all_CASRNs (lookup : List Char → SearchResp) :
    List (List Char) → Except PyError (List (List Char)) × List (List Char)
  | [] => (.ok [], [])
  | c :: cs =>
    match resolveOne lookup c with
    | (.error e, c2) => (.error e, c2 :: cs)
    | (.ok r, c2) =>
      match retrieve_all_CASRNs lookup cs with
      | (.ok rs, cs2) => (.ok (r :: rs), c2 :: cs2)
      | (.error e, cs2) => (.error e, c2 :: cs2)

/-- A deterministic search oracle used by concrete counterexamples: the name
`"x"` resolves, everything else returns zero results. -/
def cexLookup (s : List Char) : SearchResp :=
  if s == "x".data then .ok 1 ["50-00-0".data] else .ok 0 []

/-! ## 4.5 Property Fetcher (`retrieve_properties`)

The detail endpoint is modelled by a response oracle per identifier, and the
local `chemicals` estimation library (`MW`, `Tb`, `Tm`) by oracles returning
exact rationals (floats are modelled as the rationals they denote). -/

/-- Embedding of one match attempt of `re.search(r'[-]?\d*\.?\d+', s)` at a
fixed position, without the optional leading sign: greedy `\d*`, optional
`.`, then `\d+`, with backtracking folded into the case analysis. -/
def numCore (s : List Char) : Option (List Char) :=
  let r := s.takeWhile isDigitC
  match s.dropWhile isDigitC with
  | '.' :: u =>
    match u.takeWhile isDigitC with
    | [] => if r.isEmpty then none else some r
    | d :: ds => some (r ++ '.' :: d :: ds)
  | _ => if r.isEmpty then none else some r

/-- One match attempt of `re.search(r'[-]?\d*\.?\d+', s)` at a fixed
position: try the optional sign first, backtrack to the unsigned core. -/
def matchNumAt : List Char → Option (List Char)
  | '-' :: rest =>
    match numCore rest with
    | some m => some ('-' :: m)
    | none => numCore ('-' :: rest)
  | s => numCore s

/-- Embedding of `re.search(r'[-]?\d*\.?\d+', s)`: leftmost match.  It
succeeds exactly when `s` contains a digit. -/
def reSearchNum : List Char → Option (List Char)
  | [] => none
  | c :: rest =>
    match matchNumAt (c :: rest) with
    | some m => some m
    | none => reSearchNum rest

/-- A value stored in the `compound_data` dict: a string taken from the
response, `str` of a library-computed number (modelled by the exact
rational), or Python `None`, the explicit absent marker. -/
inductive PropVal
  | str (v : List Char)
  | num (q : ℚ)
  | pynone
  deriving DecidableEq, Repr

/-- Python dict insertion `d[k] = v`: update in place if the key exists,
else append (insertion order preserved). -/
def dinsert (k : List Char) (v : PropVal) :
    List (List Char × PropVal) → List (List Char × PropVal)
  | [] => [(k, v)]
  | (k2, v2) :: rest => if k2 == k then (k2, v) :: rest else (k2, v2) :: dinsert k v rest

/-- Python dict membership `k in d`. -/
def dmem (k : List Char) (d : List (List Char × PropVal)) : Bool :=
  d.any (fun p => p.1 == k)

/-- Python dict lookup `d[k]`. -/
def dlookup (k : List Char) : List (List Char × PropVal) → Option PropVal
  | [] => none
  | (k2, v) :: rest => if k2 == k then some v else dlookup k rest

/-- One entry of the `experimentalProperties` sequence: its `name` and its
free-text `property` value. -/
structure ExpProp where
  name : List Char
  property : List Char
  deriving DecidableEq, Repr

/-- Parsed JSON body of a detail response.  A `none` field models a missing
key (access raises `KeyError`). -/
structure DetailBody where
  molecularMass : Option (List Char)
  experimentalProperties : Option (List ExpProp)
  deriving DecidableEq, Repr

/-- Outcome of one GET against the detail endpoint for one identifier. -/
inductive DetailResp
  /-- `requests.get` raised (network failure). -/
  | reqError
  /-- `raise_for_status()` raised `HTTPError`. -/
  | httpError
  /-- `response.json()` raised `JSONDecodeError`, a `RequestException`. -/
  | badJson
  /-- Parsed JSON body. -/
  | ok (body : DetailBody)
  deriving DecidableEq, Repr

/-- Oracles for the local `chemicals` estimation library.  `MW` returns
`none` when the library raises on an unknown identifier (`ValueError`, which
reaches the outer `except Exception`); `Tb`/`Tm` return `none` when the
library returns Python `None`, so that `Tb(casrn) - 273.15` raises
`TypeError`, caught by the inner handler. -/
structure ChemLib where
  MW : List Char → Option ℚ
  Tb : List Char → Option ℚ
  Tm : List Char → Option ℚ

/-- The three diagnostic prints of `retrieve_properties`. -/
inductive Msg
  /-- `"Error fetching data from API: ..."` (`RequestException` handler). -/
  | apiError
  /-- `"KeyError: ... - Missing expected data in API response."`. -/
  | keyErrorMsg (k : List Char)
  /-- `"Unexpected Error: ..."` (`except Exception` handler). -/
  | unexpected
  deriving DecidableEq, Repr

/-- Banker's rounding of a rational to the nearest integer, as Python
`round` behaves on exact halves. -/
def roundHalfEven (q : ℚ) : ℤ :=
  let f := Int.fdiv q.num q.den
  let frac := q - f
  if frac < 1/2 then f
  else if 1/2 < frac then f + 1
  else if f % 2 = 0 then f else f + 1

/-- Model of Python `round(q, 3)`. -/
def pyRound3 (q : ℚ) : ℚ := (roundHalfEven (q * 1000) : ℚ) / 1000

/-- The `for property in experimental_properties` loop: extract the leading
numeric value of each entry and store it under the entry's name.  When
`re.search` finds no match, `.group()` on `None` raises `AttributeError`
(an unexpected error), modelled by `Except.error`. -/
def processEntries (d : List (List Char × PropVal)) :
    List ExpProp → Except Unit (List (List Char × PropVal))
  | [] => .ok d
  | e :: rest =>
    match reSearchNum e.property with
    | some v => processEntries (dinsert e.name (.str v) d) rest
    | none => .error ()

/-- Dict keys used by `retrieve_properties`. -/
def mwKey : List Char := "Molecular Weight".data

/-- Key of the boiling-point property. -/
def bpKey : List Char := "Boiling Point".data

/-- Key of the melting-point property. -/
def mpKey : List Char := "Melting Point".data

/-- Key of the density property. -/
def densityKey : List Char := "Density".data

/-- JSON field name `molecularMass`. -/
def mmField : List Char := "molecularMass".data

/-- JSON field name `experimentalProperties`. -/
def epField : List Char := "experimentalProperties".data

/-- Step `if "Boiling Point" not in compound_data:` — fill the boiling point
from `Tb(casrn)` in Kelvin, converted to Celsius and rounded to 3 places, or
store the absent marker when the library raises `TypeError` (`Tb` returned
`None`). -/
def bpStage (lib : ChemLib) (casrn : List Char)
    (d : List (List Char × PropVal)) : List (List Char × PropVal) :=
  if dmem bpKey d then d
  else
    match lib.Tb casrn with
    | some tb => dinsert bpKey (.num (pyRound3 (tb - 27315/100))) d
    | none => dinsert bpKey .pynone d

/-- Step `if "Melting Point" not in compound_data:` — analogous, from `Tm`. -/
def mpStage (lib : ChemLib) (casrn : List Char)
    (d : List (List Char × PropVal)) : List (List Char × PropVal) :=
  if dmem mpKey d then d
  else
    match lib.Tm casrn with
    | some tm => dinsert mpKey (.num (pyRound3 (tm - 27315/100))) d
    | none => dinsert mpKey .pynone d

/-- Step `if "Density" not in compound_data:` — the absent marker, no
fallback computation. -/
def densityStage (d : List (List Char × PropVal)) : List (List Char × PropVal) :=
  if dmem densityKey d then d else dinsert densityKey .pynone d

/-- Embedding of `retrieve_properties` (src/parser.py lines 69-105).  First
component: the returned dict, or `none` for Python `None` ("no data");
second component: the diagnostic messages printed. -/
def retrieve_properties (lib : ChemLib) (detail : List Char → DetailResp)
    (casrn : List Char) : Option (List (List Char × PropVal)) × List Msg :=
  match detail casrn with
  | .reqError => (none, [.apiError])
  | .httpError => (none, [.apiError])
  | .badJson => (none, [.apiError])
  | .ok body =>
    match body.molecularMass with
    | none => (none, [.keyErrorMsg mmField])
    | some mm =>
      let mwRes : Except Msg (List (List Char × PropVal)) :=
        if mm.isEmpty then
          match lib.MW casrn with
          | some q => .ok [(mwKey, .num q)]
          | none => .error .unexpected
        else .ok [(mwKey, .str mm)]
      match mwRes with
      | .error m => (none, [m])
      | .ok d0 =>
        match body.experimentalProperties with
        | none => (none, [.keyErrorMsg epField])
        | some entries =>
          match processEntries d0 entries with
          | .error _ => (none, [.unexpected])
          | .ok d1 => (some (densityStage (mpStage lib casrn (bpStage lib casrn d1))), [])

/-! ## Main stage (`__main__`, src/parser.py lines 107-123) -/

/-- One entry of the `chemical_data` list: a name with its property dict. -/
structure Record where
  name : List Char
  info : List (List Char × PropVal)
  deriving DecidableEq, Repr

/-- The record-building loop of `__main__`: zip names with identifiers,
fetch properties per identifier, keep only the non-`None` results. -/
def build_report (fetch : List Char → Option (List (List Char × PropVal)))
    (pairs : List (List Char × List Char)) : List Record :=
  pairs.filterMap (fun p => (fetch p.2).map (fun d => { name := p.1, info := d }))

/-- The resolution-plus-report part of `__main__`: resolve all names (an
exception there aborts the run before any record is built), then build the
records from the mutated name list zipped with the identifiers. -/
def run_pipeline (lookup : List Char → SearchResp)
    (fetch : List Char → Option (List (List Char × PropVal)))
    (names : List (List Char)) : Except PyError (List Record) :=
  match retrieve_all_CASRNs lookup names with
  | (.error e, _) => .error e
  | (.ok casrns, names2) => .ok (build_report fetch (names2.zip casrns))


/-! ## Concrete fixtures for witnesses and counterexamples -/

/-- A library oracle for concrete runs: every identifier has molecular weight
100 and a boiling point of 300 K; the melting-point table has no entry. -/
def wlib : ChemLib :=
  { MW := fun _ => some 100, Tb := fun _ => some 300, Tm := fun _ => none }

/-- A detail oracle whose response has a populated molecular mass and one
experimental property with an extractable numeric value. -/
def wdetailOk : List Char → DetailResp := fun _ =>
  .ok { molecularMass := some "46.07".data,
        experimentalProperties :=
          some [{ name := "Color".data, property := "colorless 1".data }] }

/-- A detail oracle whose only experimental property has no numeric
substring in its free-text value. -/
def wdetailNoNum : List Char → DetailResp := fun _ =>
  .ok { molecularMass := some "46.07".data,
        experimentalProperties :=
          some [{ name := "Color".data, property := "red".data }] }

/-- A detail oracle for which every request fails. -/
def wdetailReqErr : List Char → DetailResp := fun _ => .reqError

/-! ## Sanity checks of the embedding -/

theorem isAlphaC_not_digit {c : Char} (h : isAlphaC c = true) : isDigitC c = false := by
  unfold isAlphaC at h
  unfold isDigitC
  by_contra hc
  simp only [Bool.not_eq_false, Bool.and_eq_true, decide_eq_true_eq] at hc
  rcases Bool.or_eq_true_iff.mp h with h' | h' <;>
    rcases Bool.and_eq_true_iff.mp h' with ⟨h1, h2⟩ <;>
    simp only [decide_eq_true_eq] at h1 h2
  · exact absurd (le_trans h1 hc.2) (by decide)
  · exact absurd (le_trans h1 hc.2) (by decide)

example : sub1 "12dimethylhexane".data = "1,2dimethylhexane".data := by decide
example : parse_locants "12dimethylhexane".data = "1,2-dimethylhexane".data := by decide
example : parse_locants "hexanes".data = "hexane".data := by decide
example : sub4 "y hexx hexane".data = "yhexx hexane".data := by decide
example : extract_chemical_names ["HazardsA".data, "Other".data, "Hazards2 b".data]
    = ["A".data, "2 b".data] := by decide
example : extract_chemical_names ["HazardsHazards".data] = [[]] := by decide

example : stripLeadingLocants "1,2-dimethylhexane".data = "dimethylhexane".data := by decide
example : stripLeadingLocants "abc".data = "abc".data := by decide
example : stripLeadingLocants "12,".data = "12,".data := by decide
example : retrieve_all_CASRNs cexLookup ["1-x".data]
    = (.ok ["50-00-0".data], ["x".data]) := by decide

example : reSearchNum "bp 78.4 C".data = some "78.4".data := by decide
example : reSearchNum "about -.5 deg".data = some "-.5".data := by decide
example : reSearchNum "a-5".data = some "-5".data := by decide
example : reSearchNum "no digits here".data = none := by decide

example : pyRound3 (35157/100 - 27315/100) = 7842/100 := by
  norm_num [pyRound3, roundHalfEven, Rat.num_ofNat, Rat.den_ofNat, Int.fdiv]
example : pyRound3 (25/10000) = 2/1000 := by
  norm_num [pyRound3, roundHalfEven, Rat.num_ofNat, Rat.den_ofNat, Int.fdiv]

/-! ## Lemmas about the Name Extractor -/

theorem hazardsMarker_eq : hazardsMarker = ['H', 'a', 'z', 'a', 'r', 'd', 's'] := rfl

theorem pyReplace_hazards_short {s : List Char} (h : s.length < 7) :
    pyReplace hazardsMarker [] s = s := by
  induction s with
  | nil => simp [pyReplace]
  | cons c cs ih =>
    have hpre : hazardsMarker.isPrefixOf (c :: cs) = false := by
      by_contra hc
      rw [Bool.not_eq_false] at hc
      have hle := (List.isPrefixOf_iff_prefix.mp hc).length_le
      rw [hazardsMarker_eq] at hle
      simp only [List.length_cons] at h hle
      omega
    rw [pyReplace.eq_2, hpre]
    simp only [Bool.false_and, Bool.false_eq_true, if_false]
    simp only [List.length_cons] at h
    rw [ih (by omega)]

theorem replaceHazards_eq_pyReplace (s : List Char) :
    replaceHazards s = pyReplace hazardsMarker [] s := by
  induction s using replaceHazards.induct with
  | case1 a b c d e f g rest hcond ih =>
    simp only [Bool.and_eq_true, beq_iff_eq] at hcond
    obtain ⟨⟨⟨⟨⟨⟨ha, hb⟩, hc⟩, hd⟩, he⟩, hf⟩, hg⟩ := hcond
    subst ha hb hc hd he hf hg
    have hl : replaceHazards ('H' :: 'a' :: 'z' :: 'a' :: 'r' :: 'd' :: 's' :: rest)
        = replaceHazards rest := by
      simp [replaceHazards]
    rw [hl, ih]
    have hpre : hazardsMarker.isPrefixOf
        ('H' :: 'a' :: 'z' :: 'a' :: 'r' :: 'd' :: 's' :: rest) = true := by
      rw [hazardsMarker_eq]
      simp [List.isPrefixOf]
    rw [pyReplace.eq_2, hpre]
    rw [hazardsMarker_eq]
    simp
  | case2 a b c d e f g rest hcond ih =>
    have hpre : hazardsMarker.isPrefixOf
        (a :: b :: c :: d :: e :: f :: g :: rest) = false := by
      by_contra hcp
      rw [Bool.not_eq_false, hazardsMarker_eq] at hcp
      simp only [List.isPrefixOf, Bool.and_eq_true, beq_iff_eq] at hcp
      obtain ⟨ha, hb, hc, hd, he, hf, hg, -⟩ := hcp
      subst ha hb hc hd he hf hg
      exact hcond (by decide)
    have hl : replaceHazards (a :: b :: c :: d :: e :: f :: g :: rest)
        = a :: replaceHazards (b :: c :: d :: e :: f :: g :: rest) := by
      rw [replaceHazards, if_neg hcond]
    rw [hl, ih]
    conv_rhs => rw [pyReplace.eq_2]
    rw [hpre]
    simp only [Bool.false_and, Bool.false_eq_true, if_false]
  | case3 s hno =>
    rcases s with _ | ⟨a, _ | ⟨b, _ | ⟨c, _ | ⟨d, _ | ⟨e, _ | ⟨f, _ | ⟨g, rest⟩⟩⟩⟩⟩⟩⟩
    · exact (pyReplace_hazards_short (s := []) (by simp)).symm
    · exact (pyReplace_hazards_short (s := [a]) (by simp only [List.length_cons, List.length_nil]; omega)).symm
    · exact (pyReplace_hazards_short (s := [a, b]) (by simp only [List.length_cons, List.length_nil]; omega)).symm
    · exact (pyReplace_hazards_short (s := [a, b, c]) (by simp only [List.length_cons, List.length_nil]; omega)).symm
    · exact (pyReplace_hazards_short (s := [a, b, c, d]) (by simp only [List.length_cons, List.length_nil]; omega)).symm
    · exact (pyReplace_hazards_short (s := [a, b, c, d, e]) (by simp only [List.length_cons, List.length_nil]; omega)).symm
    · exact (pyReplace_hazards_short (s := [a, b, c, d, e, f]) (by simp only [List.length_cons, List.length_nil]; omega)).symm
    · exact absurd rfl (hno a b c d e f g rest)

/-! ## Lemmas about the Locant Normalizer patterns -/

theorem hasR1_tail {a : Char} {l : List Char} (h : hasR1 (a :: l) = false) :
    hasR1 l = false := by
  cases l with
  | nil => rfl
  | cons b t =>
    have h' : ((isDigitC a && isDigitC b) || hasR1 (b :: t)) = false := h
    exact (Bool.or_eq_false_iff.mp h').2

theorem hasR2_tail {a : Char} {l : List Char} (h : hasR2 (a :: l) = false) :
    hasR2 l = false := by
  cases l with
  | nil => rfl
  | cons b t =>
    have h' : (((isDigitC a && isAlphaC b) || (isAlphaC a && isDigitC b))
        || hasR2 (b :: t)) = false := h
    exact (Bool.or_eq_false_iff.mp h').2

theorem hasR3_tail {a : Char} {l : List Char} (h : hasR3 (a :: l) = false) :
    hasR3 l = false := by
  rcases l with _ | ⟨b, _ | ⟨c, t⟩⟩
  · rfl
  · rfl
  · have h' : ((isDigitC a && b == ' ' && isAlphaC c) || hasR3 (b :: c :: t)) = false := h
    exact (Bool.or_eq_false_iff.mp h').2

theorem hasR4_tail {a : Char} {l : List Char} (h : hasR4 (a :: l) = false) :
    hasR4 l = false := by
  rcases l with _ | ⟨b, _ | ⟨c, _ | ⟨d, _ | ⟨e, t⟩⟩⟩⟩
  · rfl
  · rfl
  · rfl
  · rfl
  · have h' : ((isAlphaC a && b == ' ' && c == 'h' && d == 'e' && e == 'x')
        || hasR4 (b :: c :: d :: e :: t)) = false := h
    exact (Bool.or_eq_false_iff.mp h').2

theorem hasR5_tail {a : Char} {l : List Char} (h : hasR5 (a :: l) = false) :
    hasR5 l = false := by
  rcases l with _ | ⟨b, _ | ⟨c, _ | ⟨d, _ | ⟨e, _ | ⟨f, _ | ⟨g, t⟩⟩⟩⟩⟩⟩
  · rfl
  · rfl
  · rfl
  · rfl
  · rfl
  · rfl
  · have h' : ((a == 'h' && b == 'e' && c == 'x' && d == 'a' && e == 'n'
        && f == 'e' && g == 's') || hasR5 (b :: c :: d :: e :: f :: g :: t)) = false := h
    exact (Bool.or_eq_false_iff.mp h').2

theorem sub1_id (x : List Char) (h : hasR1 x = false) : sub1 x = x := by
  induction x using sub1.induct with
  | case1 a b rest hcond ih =>
    have h' : ((isDigitC a && isDigitC b) || hasR1 (b :: rest)) = false := h
    rw [hcond] at h'
    simp at h'
  | case2 a b rest hcond ih =>
    have h' : ((isDigitC a && isDigitC b) || hasR1 (b :: rest)) = false := h
    have ht := (Bool.or_eq_false_iff.mp h').2
    show sub1 (a :: b :: rest) = a :: b :: rest
    rw [sub1, if_neg hcond, ih ht]
  | case3 s hno =>
    rcases s with _ | ⟨a, _ | ⟨b, t⟩⟩
    · rfl
    · rfl
    · exact absurd rfl (hno a b t)

theorem sub2_id (x : List Char) (h : hasR2 x = false) : sub2 x = x := by
  induction x using sub2.induct with
  | case1 a b rest hcond ih =>
    have h' : (((isDigitC a && isAlphaC b) || (isAlphaC a && isDigitC b))
        || hasR2 (b :: rest)) = false := h
    rw [hcond] at h'
    simp at h'
  | case2 a b rest hcond ih =>
    have h' : (((isDigitC a && isAlphaC b) || (isAlphaC a && isDigitC b))
        || hasR2 (b :: rest)) = false := h
    have ht := (Bool.or_eq_false_iff.mp h').2
    show sub2 (a :: b :: rest) = a :: b :: rest
    rw [sub2, if_neg hcond, ih ht]
  | case3 s hno =>
    rcases s with _ | ⟨a, _ | ⟨b, t⟩⟩
    · rfl
    · rfl
    · exact absurd rfl (hno a b t)

theorem sub3_id (x : List Char) (h : hasR3 x = false) : sub3 x = x := by
  induction x using sub3.induct with
  | case1 a b c rest hcond ih =>
    have h' : ((isDigitC a && b == ' ' && isAlphaC c) || hasR3 (b :: c :: rest)) = false := h
    rw [hcond] at h'
    simp at h'
  | case2 a b c rest hcond ih =>
    have h' : ((isDigitC a && b == ' ' && isAlphaC c) || hasR3 (b :: c :: rest)) = false := h
    have ht := (Bool.or_eq_false_iff.mp h').2
    show sub3 (a :: b :: c :: rest) = a :: b :: c :: rest
    rw [sub3, if_neg hcond, ih ht]
  | case3 s hno =>
    rcases s with _ | ⟨a, _ | ⟨b, _ | ⟨c, t⟩⟩⟩
    · rfl
    · rfl
    · rfl
    · exact absurd rfl (hno a b c t)

theorem sub5_id (x : List Char) (h : hasR5 x = false) : sub5 x = x := by
  induction x using sub5.induct with
  | case1 a b c d e f g rest hcond ih =>
    have h' : ((a == 'h' && b == 'e' && c == 'x' && d == 'a' && e == 'n'
        && f == 'e' && g == 's') || hasR5 (b :: c :: d :: e :: f :: g :: rest)) = false := h
    rw [hcond] at h'
    simp at h'
  | case2 a b c d e f g rest hcond ih =>
    have h' : ((a == 'h' && b == 'e' && c == 'x' && d == 'a' && e == 'n'
        && f == 'e' && g == 's') || hasR5 (b :: c :: d :: e :: f :: g :: rest)) = false := h
    have ht := (Bool.or_eq_false_iff.mp h').2
    show sub5 (a :: b :: c :: d :: e :: f :: g :: rest)
        = a :: b :: c :: d :: e :: f :: g :: rest
    rw [sub5, if_neg hcond, ih ht]
  | case3 s hno =>
    rcases s with _ | ⟨a, _ | ⟨b, _ | ⟨c, _ | ⟨d, _ | ⟨e, _ | ⟨f, _ | ⟨g, t⟩⟩⟩⟩⟩⟩⟩
    · rfl
    · rfl
    · rfl
    · rfl
    · rfl
    · rfl
    · rfl
    · exact absurd rfl (hno a b c d e f g t)

theorem sub4go_id (skip : Bool) (x : List Char) (h : hasR4 x = false) :
    sub4go skip x = x := by
  induction skip, x using sub4go.induct with
  | case1 skip a b c d e rest hcond ih =>
    rw [sub4go.eq_1, if_pos hcond, ih (hasR4_tail h)]
  | case2 skip a b c d e rest hcond1 hcond2 ih =>
    have h' : ((isAlphaC a && b == ' ' && c == 'h' && d == 'e' && e == 'x')
        || hasR4 (b :: c :: d :: e :: rest)) = false := h
    rw [hcond2] at h'
    simp at h'
  | case3 skip a b c d e rest hcond1 hcond2 ih =>
    rw [sub4go.eq_1, if_neg hcond1, if_neg hcond2, ih (hasR4_tail h)]
  | case4 skip a rest hshape hcond ih =>
    rw [sub4go.eq_2 skip a rest hshape, if_pos hcond, ih (hasR4_tail h)]
  | case5 skip a rest hshape hcond ih =>
    rw [sub4go.eq_2 skip a rest hshape, if_neg hcond, ih (hasR4_tail h)]
  | case6 skip => rfl

theorem spaceHyph_cons {a : Char} {xs y : List Char} (h : spaceHyph (a :: xs) y) :
    ∃ b ys, y = b :: ys ∧ (b = a ∨ (a = ' ' ∧ b = '-')) ∧ spaceHyph xs ys := by
  cases y with
  | nil => exact False.elim h
  | cons b ys =>
    have h' : (b = a ∨ (a = ' ' ∧ b = '-')) ∧ spaceHyph xs ys := h
    exact ⟨b, ys, rfl, h'.1, h'.2⟩

theorem spaceHyph_refl (s : List Char) : spaceHyph s s := by
  induction s with
  | nil => trivial
  | cons a t ih => exact ⟨Or.inl rfl, ih⟩

theorem spaceHyph_sub3 (s : List Char) : spaceHyph s (sub3 s) := by
  induction s using sub3.induct with
  | case1 a b c rest hcond ih =>
    have hb : b = ' ' := by
      simp only [Bool.and_eq_true, beq_iff_eq] at hcond
      exact hcond.1.2
    rw [sub3, if_pos hcond]
    exact ⟨Or.inl rfl, Or.inr ⟨hb, rfl⟩, Or.inl rfl, ih⟩
  | case2 a b c rest hcond ih =>
    rw [sub3, if_neg hcond]
    exact ⟨Or.inl rfl, ih⟩
  | case3 s hno =>
    rcases s with _ | ⟨a, _ | ⟨b, _ | ⟨c, t⟩⟩⟩
    · trivial
    · exact ⟨Or.inl rfl, trivial⟩
    · exact ⟨Or.inl rfl, Or.inl rfl, trivial⟩
    · exact absurd rfl (hno a b c t)

theorem spaceHyph_char {a b : Char} (h : b = a ∨ (a = ' ' ∧ b = '-')) (hb : b ≠ '-') :
    b = a := by
  rcases h with h | ⟨h1, h2⟩
  · exact h
  · exact absurd h2 hb

theorem isDigitC_transfer {a b : Char} (h : b = a ∨ (a = ' ' ∧ b = '-'))
    (hd : isDigitC b = true) : isDigitC a = true := by
  have hb : b ≠ '-' := fun he => by rw [he] at hd; exact absurd hd (by decide)
  rw [← spaceHyph_char h hb]
  exact hd

theorem isAlphaC_transfer {a b : Char} (h : b = a ∨ (a = ' ' ∧ b = '-'))
    (hd : isAlphaC b = true) : isAlphaC a = true := by
  have hb : b ≠ '-' := fun he => by rw [he] at hd; exact absurd hd (by decide)
  rw [← spaceHyph_char h hb]
  exact hd

theorem eqChar_transfer {a b c : Char} (h : b = a ∨ (a = ' ' ∧ b = '-')) (hc : c ≠ '-')
    (he : b = c) : a = c := by
  subst he
  exact (spaceHyph_char h hc).symm

theorem hasR1_transfer : ∀ x y : List Char, spaceHyph x y → hasR1 x = false →
    hasR1 y = false := by
  intro x
  induction x with
  | nil =>
    intro y hxy _
    cases y with
    | nil => rfl
    | cons b ys => exact False.elim hxy
  | cons a xs ih =>
    intro y hxy h1
    obtain ⟨b, ys, rfl, hab, hrest⟩ := spaceHyph_cons hxy
    cases xs with
    | nil =>
      cases ys with
      | nil => rfl
      | cons c cs => exact False.elim hrest
    | cons a2 xs2 =>
      obtain ⟨b2, ys2, rfl, hab2, hrest2⟩ := spaceHyph_cons hrest
      have h1' : ((isDigitC a && isDigitC a2) || hasR1 (a2 :: xs2)) = false := h1
      obtain ⟨hw, htl⟩ := Bool.or_eq_false_iff.mp h1'
      have hwy : (isDigitC b && isDigitC b2) = false := by
        by_contra hby
        rw [Bool.not_eq_false] at hby
        obtain ⟨hb1, hb2⟩ := Bool.and_eq_true_iff.mp hby
        rw [isDigitC_transfer hab hb1, isDigitC_transfer hab2 hb2] at hw
        simp at hw
      show ((isDigitC b && isDigitC b2) || hasR1 (b2 :: ys2)) = false
      rw [hwy, ih (b2 :: ys2) hrest htl]
      rfl

theorem hasR2_transfer : ∀ x y : List Char, spaceHyph x y → hasR2 x = false →
    hasR2 y = false := by
  intro x
  induction x with
  | nil =>
    intro y hxy _
    cases y with
    | nil => rfl
    | cons b ys => exact False.elim hxy
  | cons a xs ih =>
    intro y hxy h2
    obtain ⟨b, ys, rfl, hab, hrest⟩ := spaceHyph_cons hxy
    cases xs with
    | nil =>
      cases ys with
      | nil => rfl
      | cons c cs => exact False.elim hrest
    | cons a2 xs2 =>
      obtain ⟨b2, ys2, rfl, hab2, hrest2⟩ := spaceHyph_cons hrest
      have h2' : (((isDigitC a && isAlphaC a2) || (isAlphaC a && isDigitC a2))
          || hasR2 (a2 :: xs2)) = false := h2
      obtain ⟨hw, htl⟩ := Bool.or_eq_false_iff.mp h2'
      obtain ⟨hw1, hw2⟩ := Bool.or_eq_false_iff.mp hw
      have hwy : ((isDigitC b && isAlphaC b2) || (isAlphaC b && isDigitC b2)) = false := by
        by_contra hby
        rw [Bool.not_eq_false] at hby
        rcases Bool.or_eq_true_iff.mp hby with hc | hc
        · obtain ⟨hb1, hb2⟩ := Bool.and_eq_true_iff.mp hc
          rw [isDigitC_transfer hab hb1, isAlphaC_transfer hab2 hb2] at hw1
          simp at hw1
        · obtain ⟨hb1, hb2⟩ := Bool.and_eq_true_iff.mp hc
          rw [isAlphaC_transfer hab hb1, isDigitC_transfer hab2 hb2] at hw2
          simp at hw2
      show (((isDigitC b && isAlphaC b2) || (isAlphaC b && isDigitC b2))
          || hasR2 (b2 :: ys2)) = false
      rw [hwy, ih (b2 :: ys2) hrest htl]
      rfl

theorem hasR4_transfer : ∀ x y : List Char, spaceHyph x y → hasR4 x = false →
    hasR4 y = false := by
  intro x
  induction x with
  | nil =>
    intro y hxy _
    cases y with
    | nil => rfl
    | cons b ys => exact False.elim hxy
  | cons a xs ih =>
    intro y hxy h4
    obtain ⟨b, ys, rfl, hab, hrest⟩ := spaceHyph_cons hxy
    cases xs with
    | nil =>
      cases ys with
      | nil => rfl
      | cons c cs => exact False.elim hrest
    | cons a2 xs2 =>
      obtain ⟨b2, ys2, rfl, hab2, hrest2⟩ := spaceHyph_cons hrest
      cases xs2 with
      | nil =>
        cases ys2 with
        | nil => rfl
        | cons c cs => exact False.elim hrest2
      | cons a3 xs3 =>
        obtain ⟨b3, ys3, rfl, hab3, hrest3⟩ := spaceHyph_cons hrest2
        cases xs3 with
        | nil =>
          cases ys3 with
          | nil => rfl
          | cons c cs => exact False.elim hrest3
        | cons a4 xs4 =>
          obtain ⟨b4, ys4, rfl, hab4, hrest4⟩ := spaceHyph_cons hrest3
          cases xs4 with
          | nil =>
            cases ys4 with
            | nil => rfl
            | cons c cs => exact False.elim hrest4
          | cons a5 xs5 =>
            obtain ⟨b5, ys5, rfl, hab5, hrest5⟩ := spaceHyph_cons hrest4
            have h4' : ((isAlphaC a && a2 == ' ' && a3 == 'h' && a4 == 'e' && a5 == 'x')
                || hasR4 (a2 :: a3 :: a4 :: a5 :: xs5)) = false := h4
            obtain ⟨hw, htl⟩ := Bool.or_eq_false_iff.mp h4'
            have hwy : (isAlphaC b && b2 == ' ' && b3 == 'h' && b4 == 'e' && b5 == 'x')
                = false := by
              by_contra hby
              rw [Bool.not_eq_false] at hby
              simp only [Bool.and_eq_true, beq_iff_eq] at hby
              obtain ⟨⟨⟨⟨hb1, hb2⟩, hb3⟩, hb4⟩, hb5⟩ := hby
              rw [isAlphaC_transfer hab hb1, eqChar_transfer hab2 (by decide) hb2,
                eqChar_transfer hab3 (by decide) hb3, eqChar_transfer hab4 (by decide) hb4,
                eqChar_transfer hab5 (by decide) hb5] at hw
              simp at hw
            show ((isAlphaC b && b2 == ' ' && b3 == 'h' && b4 == 'e' && b5 == 'x')
                || hasR4 (b2 :: b3 :: b4 :: b5 :: ys5)) = false
            rw [hwy, ih (b2 :: b3 :: b4 :: b5 :: ys5) hrest htl]
            rfl

theorem hasR5_transfer : ∀ x y : List Char, spaceHyph x y → hasR5 x = false →
    hasR5 y = false := by
  intro x
  induction x with
  | nil =>
    intro y hxy _
    cases y with
    | nil => rfl
    | cons b ys => exact False.elim hxy
  | cons a xs ih =>
    intro y hxy h5
    obtain ⟨b, ys, rfl, hab, hrest⟩ := spaceHyph_cons hxy
    cases xs with
    | nil =>
      cases ys with
      | nil => rfl
      | cons c cs => exact False.elim hrest
    | cons a2 xs2 =>
      obtain ⟨b2, ys2, rfl, hab2, hrest2⟩ := spaceHyph_cons hrest
      cases xs2 with
      | nil =>
        cases ys2 with
        | nil => rfl
        | cons c cs => exact False.elim hrest2
      | cons a3 xs3 =>
        obtain ⟨b3, ys3, rfl, hab3, hrest3⟩ := spaceHyph_cons hrest2
        cases xs3 with
        | nil =>
          cases ys3 with
          | nil => rfl
          | cons c cs => exact False.elim hrest3
        | cons a4 xs4 =>
          obtain ⟨b4, ys4, rfl, hab4, hrest4⟩ := spaceHyph_cons hrest3
          cases xs4 with
          | nil =>
            cases ys4 with
            | nil => rfl
            | cons c cs => exact False.elim hrest4
          | cons a5 xs5 =>
            obtain ⟨b5, ys5, rfl, hab5, hrest5⟩ := spaceHyph_cons hrest4
            cases xs5 with
            | nil =>
              cases ys5 with
              | nil => rfl
              | cons c cs => exact False.elim hrest5
            | cons a6 xs6 =>
              obtain ⟨b6, ys6, rfl, hab6, hrest6⟩ := spaceHyph_cons hrest5
              cases xs6 with
              | nil =>
                cases ys6 with
                | nil => rfl
                | cons c cs => exact False.elim hrest6
              | cons a7 xs7 =>
                obtain ⟨b7, ys7, rfl, hab7, hrest7⟩ := spaceHyph_cons hrest6
                have h5' : ((a == 'h' && a2 == 'e' && a3 == 'x' && a4 == 'a'
                    && a5 == 'n' && a6 == 'e' && a7 == 's')
                    || hasR5 (a2 :: a3 :: a4 :: a5 :: a6 :: a7 :: xs7)) = false := h5
                obtain ⟨hw, htl⟩ := Bool.or_eq_false_iff.mp h5'
                have hwy : (b == 'h' && b2 == 'e' && b3 == 'x' && b4 == 'a'
                    && b5 == 'n' && b6 == 'e' && b7 == 's') = false := by
                  by_contra hby
                  rw [Bool.not_eq_false] at hby
                  simp only [Bool.and_eq_true, beq_iff_eq] at hby
                  obtain ⟨⟨⟨⟨⟨⟨hb1, hb2⟩, hb3⟩, hb4⟩, hb5⟩, hb6⟩, hb7⟩ := hby
                  rw [eqChar_transfer hab (by decide) hb1,
                    eqChar_transfer hab2 (by decide) hb2,
                    eqChar_transfer hab3 (by decide) hb3,
                    eqChar_transfer hab4 (by decide) hb4,
                    eqChar_transfer hab5 (by decide) hb5,
                    eqChar_transfer hab6 (by decide) hb6,
                    eqChar_transfer hab7 (by decide) hb7] at hw
                  simp at hw
                show ((b == 'h' && b2 == 'e' && b3 == 'x' && b4 == 'a'
                    && b5 == 'n' && b6 == 'e' && b7 == 's')
                    || hasR5 (b2 :: b3 :: b4 :: b5 :: b6 :: b7 :: ys7)) = false
                rw [hwy, ih (b2 :: b3 :: b4 :: b5 :: b6 :: b7 :: ys7) hrest htl]
                rfl

theorem hasR3_not_digit {a : Char} (l : List Char) (ha : isDigitC a = false) :
    hasR3 (a :: l) = hasR3 l := by
  rcases l with _ | ⟨b, _ | ⟨c, t⟩⟩
  · rfl
  · rfl
  · show ((isDigitC a && b == ' ' && isAlphaC c) || hasR3 (b :: c :: t)) = hasR3 (b :: c :: t)
    rw [ha]
    simp

theorem hasR3_not_space {a b : Char} (l : List Char) (hb : (b == ' ') = false) :
    hasR3 (a :: b :: l) = hasR3 (b :: l) := by
  rcases l with _ | ⟨c, t⟩
  · rfl
  · show ((isDigitC a && b == ' ' && isAlphaC c) || hasR3 (b :: c :: t)) = hasR3 (b :: c :: t)
    rw [hb]
    simp

theorem sub3_cons_head (x : Char) (l : List Char) : ∃ t, sub3 (x :: l) = x :: t := by
  rcases l with _ | ⟨c1, _ | ⟨c2, l2⟩⟩
  · exact ⟨[], rfl⟩
  · exact ⟨[c1], rfl⟩
  · by_cases hcond : (isDigitC x && c1 == ' ' && isAlphaC c2) = true
    · exact ⟨'-' :: c2 :: sub3 l2, by rw [sub3, if_pos hcond]⟩
    · exact ⟨sub3 (c1 :: c2 :: l2), by rw [sub3, if_neg hcond]⟩

theorem sub3_two (b c : Char) (r : List Char) :
    (∃ t, sub3 (b :: c :: r) = b :: c :: t) ∨ (∃ t, sub3 (b :: c :: r) = b :: '-' :: t) := by
  rcases r with _ | ⟨r0, rs⟩
  · exact Or.inl ⟨[], rfl⟩
  · by_cases hcond : (isDigitC b && c == ' ' && isAlphaC r0) = true
    · exact Or.inr ⟨r0 :: sub3 rs, by rw [sub3, if_pos hcond]⟩
    · obtain ⟨t, ht⟩ := sub3_cons_head c (r0 :: rs)
      exact Or.inl ⟨t, by rw [sub3, if_neg hcond, ht]⟩

theorem hasR3_cons_of (a : Char) (y : List Char)
    (hwin : ∀ b c t, y = b :: c :: t → (isDigitC a && b == ' ' && isAlphaC c) = false)
    (hy : hasR3 y = false) : hasR3 (a :: y) = false := by
  rcases y with _ | ⟨b, _ | ⟨c, t⟩⟩
  · rfl
  · rfl
  · show ((isDigitC a && b == ' ' && isAlphaC c) || hasR3 (b :: c :: t)) = false
    rw [hwin b c t rfl, hy]
    rfl

theorem hasR3_sub3 (s : List Char) : hasR3 (sub3 s) = false := by
  induction s using sub3.induct with
  | case1 a b c rest hcond ih =>
    have hc : isAlphaC c = true := by
      simp only [Bool.and_eq_true] at hcond
      exact hcond.2
    rw [sub3, if_pos hcond]
    rw [hasR3_not_space (c :: sub3 rest) (by decide)]
    rw [hasR3_not_digit (c :: sub3 rest) (by decide)]
    rw [hasR3_not_digit (sub3 rest) (isAlphaC_not_digit hc)]
    exact ih
  | case2 a b c rest hcond ih =>
    rw [sub3, if_neg hcond]
    refine hasR3_cons_of a _ ?_ ih
    intro b' c' t heq
    rcases sub3_two b c rest with ⟨t2, ht2⟩ | ⟨t2, ht2⟩
    · rw [ht2] at heq
      injection heq with h1 heq2
      injection heq2 with h2 _
      subst h1
      subst h2
      exact Bool.eq_false_iff.mpr hcond
    · rw [ht2] at heq
      injection heq with h1 heq2
      injection heq2 with h2 _
      subst h1
      subst h2
      have : isAlphaC '-' = false := by decide
      rw [this]
      simp
  | case3 s hno =>
    rcases s with _ | ⟨a, _ | ⟨b, _ | ⟨c, t⟩⟩⟩
    · rfl
    · rfl
    · rfl
    · exact absurd rfl (hno a b c t)

/-! ## Lemmas about the property dict and numeric extraction -/

theorem dmem_dinsert_ne {k2 k : List Char} (v : PropVal)
    (d : List (List Char × PropVal)) (hne : k2 ≠ k) :
    dmem k (dinsert k2 v d) = dmem k d := by
  induction d with
  | nil => simp [dmem, dinsert, hne]
  | cons p rest ih =>
    rcases p with ⟨k3, v3⟩
    by_cases h3 : (k3 == k2) = true
    · simp only [dinsert, h3, if_true, dmem, List.any_cons]
    · simp only [dinsert, h3, if_false, dmem, List.any_cons, Bool.false_eq_true]
      rw [show (List.any (dinsert k2 v rest) fun p => p.1 == k)
            = dmem k (dinsert k2 v rest) from rfl, ih]
      rfl

theorem dlookup_dinsert_self (k : List Char) (v : PropVal)
    (d : List (List Char × PropVal)) :
    dlookup k (dinsert k v d) = some v := by
  induction d with
  | nil => simp [dinsert, dlookup]
  | cons p rest ih =>
    rcases p with ⟨k3, v3⟩
    by_cases h3 : (k3 == k) = true
    · simp [dinsert, dlookup, h3]
    · simp [dinsert, dlookup, h3, ih]

theorem dlookup_dinsert_ne {k2 k : List Char} (v : PropVal)
    (d : List (List Char × PropVal)) (hne : k2 ≠ k) :
    dlookup k (dinsert k2 v d) = dlookup k d := by
  induction d with
  | nil => simp [dinsert, dlookup, hne]
  | cons p rest ih =>
    rcases p with ⟨k3, v3⟩
    by_cases h3 : (k3 == k2) = true
    · have hk3 : (k3 == k) = false := by
        rw [beq_iff_eq] at h3
        subst h3
        exact beq_eq_false_iff_ne.mpr hne
      simp [dinsert, dlookup, h3, hk3]
    · by_cases hk3 : (k3 == k) = true
      · simp [dinsert, dlookup, h3, hk3]
      · simp [dinsert, dlookup, h3, hk3, ih]

theorem numCore_none_of_no_digit {s : List Char}
    (h : ∀ c ∈ s, isDigitC c = false) : numCore s = none := by
  have htake : s.takeWhile isDigitC = [] := by
    cases s with
    | nil => rfl
    | cons c cs => simp [List.takeWhile_cons, h c (by simp)]
  have hdrop : s.dropWhile isDigitC = s := by
    cases s with
    | nil => rfl
    | cons c cs => simp [List.dropWhile_cons, h c (by simp)]
  unfold numCore
  rw [htake, hdrop]
  cases s with
  | nil => rfl
  | cons c cs =>
    by_cases hc : c = '.'
    · subst hc
      have hu : cs.takeWhile isDigitC = [] := by
        cases cs with
        | nil => rfl
        | cons x xs => simp [List.takeWhile_cons, h x (by simp)]
      simp [hu]
    · have : (match c :: cs with
          | '.' :: u =>
            match u.takeWhile isDigitC with
            | [] => if List.isEmpty ([] : List Char) then none else some []
            | d :: ds => some (([] : List Char) ++ '.' :: d :: ds)
          | _ => if List.isEmpty ([] : List Char) then none
                 else some ([] : List Char)) = none := by
        split
        · rename_i u heq
          injection heq with h1 h2
          exact absurd h1 hc
        · rfl
      exact this

theorem matchNumAt_none_of_no_digit {s : List Char}
    (h : ∀ c ∈ s, isDigitC c = false) : matchNumAt s = none := by
  unfold matchNumAt
  split
  · rename_i rest
    have h1 : numCore rest = none :=
      numCore_none_of_no_digit (fun c hc => h c (by simp [hc]))
    rw [h1]
    exact numCore_none_of_no_digit h
  · exact numCore_none_of_no_digit h

theorem reSearchNum_none_of_no_digit {s : List Char}
    (h : ∀ c ∈ s, isDigitC c = false) : reSearchNum s = none := by
  induction s with
  | nil => rfl
  | cons c cs ih =>
    unfold reSearchNum
    rw [matchNumAt_none_of_no_digit h]
    exact ih (fun x hx => h x (by simp [hx]))

theorem processEntries_ok (entries : List ExpProp) (d : List (List Char × PropVal))
    (hext : ∀ e ∈ entries, (reSearchNum e.property).isSome = true) :
    ∃ d2, processEntries d entries = .ok d2
      ∧ ∀ k, (∀ e ∈ entries, e.name ≠ k) → dmem k d = false → dmem k d2 = false := by
  induction entries generalizing d with
  | nil => exact ⟨d, rfl, fun k _ hk => hk⟩
  | cons e rest ih =>
    have he := hext e (by simp)
    rcases hse : reSearchNum e.property with _ | v
    · rw [hse] at he
      simp at he
    · obtain ⟨d2, hd2, hpres⟩ :=
        ih (dinsert e.name (.str v) d) (fun x hx => hext x (by simp [hx]))
      refine ⟨d2, ?_, ?_⟩
      · unfold processEntries
        rw [hse]
        exact hd2
      · intro k hk hkd
        refine hpres k (fun x hx => hk x (by simp [hx])) ?_
        rw [dmem_dinsert_ne (.str v) d (hk e (by simp))]
        exact hkd

theorem processEntries_err (entries : List ExpProp) (d : List (List Char × PropVal))
    (e : ExpProp) (he : e ∈ entries) (hnone : reSearchNum e.property = none) :
    processEntries d entries = .error () := by
  induction entries generalizing d with
  | nil => cases he
  | cons x rest ih =>
    rcases hx : reSearchNum x.property with _ | v
    · unfold processEntries
      rw [hx]
    · rcases List.mem_cons.mp he with rfl | he2
      · rw [hx] at hnone
        cases hnone
      · unfold processEntries
        rw [hx]
        exact ih (dinsert x.name (.str v) d) he2

theorem dlookup_mpStage_ne (lib : ChemLib) (casrn k : List Char)
    (d : List (List Char × PropVal)) (hne : k ≠ mpKey) :
    dlookup k (mpStage lib casrn d) = dlookup k d := by
  unfold mpStage
  split
  · rfl
  · cases lib.Tm casrn <;> exact dlookup_dinsert_ne _ d (Ne.symm hne)

theorem dlookup_densityStage_ne (k : List Char)
    (d : List (List Char × PropVal)) (hne : k ≠ densityKey) :
    dlookup k (densityStage d) = dlookup k d := by
  unfold densityStage
  split
  · rfl
  · exact dlookup_dinsert_ne _ d (Ne.symm hne)

theorem build_report_skip (fetch : List Char → Option (List (List Char × PropVal)))
    (nm casrn : List Char) (before after : List (List Char × List Char))
    (hfail : fetch casrn = none) :
    build_report fetch (before ++ (nm, casrn) :: after)
      = build_report fetch before ++ build_report fetch after := by
  unfold build_report
  rw [List.filterMap_append]
  simp [hfail]

theorem retrieve_properties_entry_unexpected (lib : ChemLib)
    (detail : List Char → DetailResp) (casrn mm : List Char)
    (entries : List ExpProp) (e : ExpProp)
    (hd : detail casrn
      = .ok { molecularMass := some mm, experimentalProperties := some entries })
    (he : e ∈ entries) (hnone : reSearchNum e.property = none) :
    retrieve_properties lib detail casrn = (none, [Msg.unexpected]) := by
  have herr : ∀ d, processEntries d entries = .error () := fun d =>
    processEntries_err entries d e he hnone
  unfold retrieve_properties
  rw [hd]
  rcases mm with _ | ⟨m, ms⟩
  · rcases hmw : lib.MW casrn with _ | q
    · simp [hmw]
    · simp [hmw, herr]
  · simp [herr]

theorem retrieve_properties_mw_unexpected (lib : ChemLib)
    (detail : List Char → DetailResp) (casrn : List Char)
    (ep : Option (List ExpProp))
    (hd : detail casrn = .ok { molecularMass := some [], experimentalProperties := ep })
    (hmw : lib.MW casrn = none) :
    retrieve_properties lib detail casrn = (none, [Msg.unexpected]) := by
  unfold retrieve_properties
  rw [hd]
  simp [hmw]

/-! ## Lemmas about the Identifier Resolver -/

theorem resolveOne_retry (lookup : List Char → SearchResp) (name : List Char)
    (h1 : retrieve_CASRN (lookup name) = .ok none) :
    resolveOne lookup name =
      (match retrieve_CASRN (lookup (stripLeadingLocants name)) with
       | .ok (some c) => .ok c
       | .ok none => .error PyError.valueError
       | .error e => .error e,
       stripLeadingLocants name) := by
  unfold resolveOne
  rw [h1]
  cases hx : retrieve_CASRN (lookup (stripLeadingLocants name)) with
  | error e => simp [hx]
  | ok o => cases o <;> simp [hx]

theorem resolver_error_of_mem (lookup : List Char → SearchResp)
    (name : List Char) (names : List (List Char)) (hmem : name ∈ names)
    (hfail : resolveOne lookup name = (.error .valueError, stripLeadingLocants name)) :
    ∃ e l, retrieve_all_CASRNs lookup names = (.error e, l) := by
  induction names with
  | nil => cases hmem
  | cons c cs ih =>
    rcases List.mem_cons.mp hmem with rfl | hmem2
    · exact ⟨.valueError, stripLeadingLocants name :: cs,
        by unfold retrieve_all_CASRNs; rw [hfail]⟩
    · cases h3 : resolveOne lookup c with
      | mk res c2 =>
        cases res with
        | error e => exact ⟨e, c2 :: cs, by unfold retrieve_all_CASRNs; rw [h3]⟩
        | ok r =>
          obtain ⟨e, l, hel⟩ := ih hmem2
          exact ⟨e, c2 :: l, by unfold retrieve_all_CASRNs; rw [h3, hel]⟩

/-! ## Claim C1 -/

/-- C1 counterexample: on the label `"HazardsHazards"`, which starts with the
marker, `extract_chemical_names` returns `""` — every occurrence of
`"Hazards"` is removed, not just the leading prefix, so the claimed output
`"Hazards"` (leading prefix removed, nothing else altered) is wrong. -/
theorem extract_names_not_prefix_strip :
    extract_chemical_names ["HazardsHazards".data] ≠ ["Hazards".data]
    ∧ extract_chemical_names ["HazardsHazards".data] = [[]] := by
  constructor
  · decide
  · decide

/-- C1 amended: for every list of field labels, `extract_chemical_names`
returns exactly those labels that start with the literal marker `"Hazards"`,
in input order, with every leftmost, non-overlapping occurrence of
`"Hazards"` removed from each (a full `str.replace`, not only the leading
prefix). -/
theorem extract_names_replace_all (fields : List (List Char)) :
    extract_chemical_names fields
      = (fields.filter (fun f => hazardsMarker.isPrefixOf f)).map
          (pyReplace hazardsMarker []) := by
  unfold extract_chemical_names
  exact List.map_congr_left (fun f _ => replaceHazards_eq_pyReplace f)

/-! ## Claim C8 -/

/-- C8: applying the Locant Normalizer to `"12dimethylhexane"` yields exactly
`"1,2-dimethylhexane"`: rule 1 inserts the comma between the adjacent digits,
rule 2 then inserts the hyphen at the digit-letter boundary, and rules 3-5
leave the string unchanged. -/
theorem parse_locants_12dimethylhexane :
    sub1 "12dimethylhexane".data = "1,2dimethylhexane".data
    ∧ sub2 "1,2dimethylhexane".data = "1,2-dimethylhexane".data
    ∧ sub3 "1,2-dimethylhexane".data = "1,2-dimethylhexane".data
    ∧ sub4 "1,2-dimethylhexane".data = "1,2-dimethylhexane".data
    ∧ sub5 "1,2-dimethylhexane".data = "1,2-dimethylhexane".data
    ∧ parse_locants "12dimethylhexane".data = "1,2-dimethylhexane".data := by
  refine ⟨by decide, by decide, by decide, by decide, by decide, by decide⟩

/-! ## Claim C3 -/

/-- C3 counterexample: when `requests.get` fails, `retrieve_CASRN` does not
return the absent marker — the `RequestException` is not a `ValueError`, so
it propagates out of the function. -/
theorem retrieve_CASRN_request_error_propagates :
    retrieve_CASRN SearchResp.reqError ≠ .ok none
    ∧ retrieve_CASRN SearchResp.reqError = .error PyError.requestException := by
  constructor
  · decide
  · decide

/-- C3 amended: `retrieve_CASRN` swallows only the errors raised as
`ValueError` — a zero-result response and a malformed response body (whose
`JSONDecodeError` subclasses `ValueError`) — returning the absent marker,
indistinguishable from a legitimate zero-result response; a failed request or
an error HTTP status propagates a `RequestException` out of the function, and
a positive count yields the first result's registry number. -/
theorem retrieve_CASRN_error_cases (results : List (List Char)) (r : List Char)
    (rs : List (List Char)) (n : Nat) :
    retrieve_CASRN (SearchResp.ok 0 results) = .ok none
    ∧ retrieve_CASRN SearchResp.badJson = .ok none
    ∧ retrieve_CASRN SearchResp.reqError = .error PyError.requestException
    ∧ retrieve_CASRN SearchResp.httpError = .error PyError.requestException
    ∧ retrieve_CASRN (SearchResp.ok (n + 1) (r :: rs)) = .ok (some r) := by
  refine ⟨rfl, rfl, rfl, rfl, ?_⟩
  simp [retrieve_CASRN]

/-! ## Claim C2 -/

/-- C2 counterexample: with a lookup under which `"1-x"` finds nothing but
the stripped name `"x"` resolves, `retrieve_all_CASRNs` returns normally yet
its input list has been mutated: the entry `"1-x"` was overwritten with
`"x"`. -/
theorem resolver_mutates_input :
    (retrieve_all_CASRNs cexLookup ["1-x".data]).1 = .ok ["50-00-0".data]
    ∧ (retrieve_all_CASRNs cexLookup ["1-x".data]).2 ≠ ["1-x".data] := by
  constructor
  · decide
  · decide

/-- C2 amended: `retrieve_all_CASRNs` leaves its input list of chemical
names unchanged provided every name's first lookup succeeds; whenever a
first lookup returns the absent marker, the function overwrites that entry
in place with its locant-stripped form before retrying, so a run that needed
the one-shot retry can mutate the list. -/
theorem resolver_frame (lookup : List Char → SearchResp) (names : List (List Char)) :
    ((∀ n ∈ names, ∃ c, retrieve_CASRN (lookup n) = .ok (some c)) →
      (retrieve_all_CASRNs lookup names).2 = names)
    ∧ (∀ n, retrieve_CASRN (lookup n) = .ok none →
        (resolveOne lookup n).2 = stripLeadingLocants n) := by
  constructor
  · intro h
    induction names with
    | nil => rfl
    | cons c cs ih =>
      obtain ⟨r, hr⟩ := h c (by simp)
      have hone : resolveOne lookup c = (.ok r, c) := by
        unfold resolveOne
        rw [hr]
      have htail := ih (fun n hn => h n (by simp [hn]))
      unfold retrieve_all_CASRNs
      rw [hone]
      rcases hre : retrieve_all_CASRNs lookup cs with ⟨res, cs2⟩
      rw [hre] at htail
      cases res <;> simp_all
  · intro n hn
    rw [resolveOne_retry lookup n hn]

/-- C2 witness: a run where every first lookup succeeds leaves the list
unchanged. -/
theorem resolver_frame_witness :
    (retrieve_all_CASRNs (fun _ => SearchResp.ok 1 ["7732-18-5".data])
        ["water".data]).2 = ["water".data] := by
  have h := (resolver_frame (fun _ => SearchResp.ok 1 ["7732-18-5".data]) ["water".data]).1
  exact h (fun n _ => ⟨"7732-18-5".data, rfl⟩)

/-! ## Claim C4 -/

/-- C4: when a name's first lookup yields no identifier, the resolver strips
one leading run of digits/commas followed by a hyphen and retries exactly
once with the stripped name — the outcome is decided entirely by that single
retry, and the caller's list slot now holds the stripped name; if the retry
also yields no identifier, a `ValueError` is raised and the pipeline aborts
with an error, so no Compound Records are produced. -/
theorem resolver_retry_and_abort (lookup : List Char → SearchResp)
    (fetch : List Char → Option (List (List Char × PropVal)))
    (name : List Char) (names : List (List Char))
    (h1 : retrieve_CASRN (lookup name) = .ok none) :
    resolveOne lookup name =
      (match retrieve_CASRN (lookup (stripLeadingLocants name)) with
       | .ok (some c) => .ok c
       | .ok none => .error PyError.valueError
       | .error e => .error e,
       stripLeadingLocants name)
    ∧ (retrieve_CASRN (lookup (stripLeadingLocants name)) = .ok none → name ∈ names →
        ∃ e, run_pipeline lookup fetch names = .error e) := by
  refine ⟨resolveOne_retry lookup name h1, fun h2 hmem => ?_⟩
  have hfail : resolveOne lookup name = (.error .valueError, stripLeadingLocants name) := by
    rw [resolveOne_retry lookup name h1, h2]
  obtain ⟨e, l, hel⟩ := resolver_error_of_mem lookup name names hmem hfail
  exact ⟨e, by unfold run_pipeline; rw [hel]⟩

/-- C4 witness: a name failing both lookups aborts the run with no records. -/
theorem resolver_retry_and_abort_witness :
    ∃ e, run_pipeline (fun _ => SearchResp.ok 0 []) (fun _ => none)
        ["badname".data] = .error e := by
  have h := resolver_retry_and_abort (fun _ => SearchResp.ok 0 []) (fun _ => none)
    "badname".data ["badname".data] rfl
  exact h.2 rfl (by simp)

/-! ## Claim C5 -/

/-- C5: whenever `retrieve_all_CASRNs` returns normally it returns exactly
one identifier per input name, in input order: the identifier list and the
(possibly mutated) chemical-name list both have the length of the input
list, and the i-th identifier together with the i-th final name are exactly
the outcome of resolving the i-th input name, so the two lists zipped by the
property stage are length-matched and order-aligned. -/
theorem resolver_length_aligned (lookup : List Char → SearchResp)
    (names casrns names2 : List (List Char))
    (h : retrieve_all_CASRNs lookup names = (.ok casrns, names2)) :
    (casrns.length = names.length ∧ names2.length = names.length)
    ∧ ∀ i (hn : i < names.length) (hc : i < casrns.length) (hm : i < names2.length),
        resolveOne lookup (names.get ⟨i, hn⟩)
          = (.ok (casrns.get ⟨i, hc⟩), names2.get ⟨i, hm⟩) := by
  induction names generalizing casrns names2 with
  | nil =>
    unfold retrieve_all_CASRNs at h
    simp only [Prod.mk.injEq] at h
    obtain ⟨h1, h2⟩ := h
    injection h1 with h1
    subst h1 h2
    refine ⟨⟨rfl, rfl⟩, ?_⟩
    intro i hn hc hm
    exact absurd hn (by simp)
  | cons c cs ih =>
    unfold retrieve_all_CASRNs at h
    cases h1 : resolveOne lookup c with
    | mk res c2 =>
      rw [h1] at h
      cases res with
      | error e => simp at h
      | ok r =>
        cases h2 : retrieve_all_CASRNs lookup cs with
        | mk res2 cs2 =>
          rw [h2] at h
          cases res2 with
          | error e => simp at h
          | ok rs =>
            simp only [Prod.mk.injEq] at h
            obtain ⟨hcas, hnames⟩ := h
            injection hcas with hcas
            subst hcas hnames
            obtain ⟨⟨ihl, ihr⟩, ihp⟩ := ih rs cs2 h2
            refine ⟨⟨by simp [ihl], by simp [ihr]⟩, ?_⟩
            intro i hn hc hm
            cases i with
            | zero => simpa using h1
            | succ j =>
              have hj := ihp j (by simpa using hn) (by simpa using hc) (by simpa using hm)
              simpa using hj

/-- C5 witness: a two-name run (one needing the retry) returns two
identifiers aligned with the two names, and the first identifier is exactly
the outcome of resolving the first name. -/
theorem resolver_length_aligned_witness :
    ((["50-00-0".data, "50-00-0".data] : List (List Char)).length
        = (["1-x".data, "x".data] : List (List Char)).length
      ∧ (["x".data, "x".data] : List (List Char)).length
        = (["1-x".data, "x".data] : List (List Char)).length)
    ∧ resolveOne cexLookup "1-x".data = (.ok "50-00-0".data, "x".data) := by
  have h := resolver_length_aligned cexLookup ["1-x".data, "x".data]
    ["50-00-0".data, "50-00-0".data] ["x".data, "x".data] (by decide)
  refine ⟨h.1, ?_⟩
  have h0 := h.2 0 (by decide) (by decide) (by decide)
  simpa using h0

/-! ## Claim C6 -/

/-- C6: a per-identifier property fetch that fails — network/request error
(including an error HTTP status or malformed body), a missing expected key,
or any other unexpected error (a `.group()` call on a failed numeric match,
or the estimation library raising on the molecular-weight fallback) — makes
`retrieve_properties` print a diagnostic and return the "no data" marker;
that compound is then omitted from the final report while the remaining
identifiers are still processed, and the failing identifier still appears in
the printed identifier list (which is the full zipped list, printed before
the property stage). -/
theorem fetch_failure_skipped (lib : ChemLib) (detail : List Char → DetailResp)
    (casrn nm : List Char) (before after : List (List Char × List Char)) :
    ((detail casrn = .reqError ∨ detail casrn = .httpError ∨ detail casrn = .badJson) →
        retrieve_properties lib detail casrn = (none, [Msg.apiError]))
    ∧ (∀ ep, detail casrn = .ok { molecularMass := none, experimentalProperties := ep } →
        retrieve_properties lib detail casrn = (none, [Msg.keyErrorMsg mmField]))
    ∧ (∀ m ms, detail casrn
          = .ok { molecularMass := some (m :: ms), experimentalProperties := none } →
        retrieve_properties lib detail casrn = (none, [Msg.keyErrorMsg epField]))
    ∧ (∀ mm entries e, detail casrn
          = .ok { molecularMass := some mm, experimentalProperties := some entries } →
        e ∈ entries → reSearchNum e.property = none →
        retrieve_properties lib detail casrn = (none, [Msg.unexpected]))
    ∧ (∀ ep, detail casrn
          = .ok { molecularMass := some [], experimentalProperties := ep } →
        lib.MW casrn = none →
        retrieve_properties lib detail casrn = (none, [Msg.unexpected]))
    ∧ ((retrieve_properties lib detail casrn).1 = none →
        build_report (fun c => (retrieve_properties lib detail c).1)
            (before ++ (nm, casrn) :: after)
          = build_report (fun c => (retrieve_properties lib detail c).1) before
            ++ build_report (fun c => (retrieve_properties lib detail c).1) after)
    ∧ casrn ∈ (before ++ (nm, casrn) :: after).map Prod.snd := by
  refine ⟨?_, ?_, ?_, ?_, ?_, ?_, ?_⟩
  · rintro (h | h | h) <;> (unfold retrieve_properties; rw [h])
  · intro ep h
    unfold retrieve_properties
    rw [h]
  · intro m ms h
    unfold retrieve_properties
    rw [h]
    simp only [List.isEmpty_cons, Bool.false_eq_true, if_false]
  · intro mm entries e hd he hnone
    exact retrieve_properties_entry_unexpected lib detail casrn mm entries e hd he hnone
  · intro ep hd hmw
    exact retrieve_properties_mw_unexpected lib detail casrn ep hd hmw
  · intro hnone
    exact build_report_skip _ nm casrn before after hnone
  · simp

/-- C6 witness: with a failing detail oracle, the fetch returns "no data"
with a printed diagnostic and the compound is dropped from the report. -/
theorem fetch_failure_skipped_witness :
    retrieve_properties wlib wdetailReqErr "50-00-0".data = (none, [Msg.apiError])
    ∧ build_report (fun c => (retrieve_properties wlib wdetailReqErr c).1)
        [("formaldehyde".data, "50-00-0".data)] = [] := by
  have h := fetch_failure_skipped wlib wdetailReqErr "50-00-0".data
    "formaldehyde".data [] []
  have h1 := h.1 (Or.inl rfl)
  refine ⟨h1, ?_⟩
  have h6 := h.2.2.2.2.2.1 (by rw [h1])
  simpa using h6

/-! ## Claim C7 -/

/-- C7: when the detail response has no "Boiling Point" experimental entry
(and the fetch otherwise succeeds: molecular mass populated, every entry's
value numerically extractable), the fetcher fills "Boiling Point" from the
local estimation library as its Kelvin value minus 273.15 rounded to 3
decimal places; when the library raises the type-mismatch condition
(identifier not found, `Tb` returning `None`), the stored value is the
explicit absent marker and no exception propagates. -/
theorem bp_fallback (lib : ChemLib) (detail : List Char → DetailResp)
    (casrn mm : List Char) (entries : List ExpProp)
    (hd : detail casrn = .ok { molecularMass := some mm, experimentalProperties := some entries })
    (hmm : mm ≠ [])
    (hext : ∀ e ∈ entries, (reSearchNum e.property).isSome = true)
    (hbp : ∀ e ∈ entries, e.name ≠ bpKey) :
    (∀ tb, lib.Tb casrn = some tb →
        ∃ d, (retrieve_properties lib detail casrn).1 = some d
          ∧ dlookup bpKey d = some (.num (pyRound3 (tb - 27315/100))))
    ∧ (lib.Tb casrn = none →
        ∃ d, (retrieve_properties lib detail casrn).1 = some d
          ∧ dlookup bpKey d = some .pynone) := by
  obtain ⟨d1, hpe, hpres⟩ := processEntries_ok entries [(mwKey, .str mm)] hext
  have hbp1 : dmem bpKey d1 = false := by
    refine hpres bpKey hbp ?_
    simp [dmem]
    decide
  rcases mm with _ | ⟨m, ms⟩
  · exact absurd rfl hmm
  have hrp : retrieve_properties lib detail casrn
      = (some (densityStage (mpStage lib casrn (bpStage lib casrn d1))), []) := by
    unfold retrieve_properties
    rw [hd]
    simp only [List.isEmpty_cons, Bool.false_eq_true, if_false]
    rw [hpe]
  have hfinal : ∀ v, dlookup bpKey (bpStage lib casrn d1) = some v →
      dlookup bpKey (densityStage (mpStage lib casrn (bpStage lib casrn d1))) = some v := by
    intro v hv
    rw [dlookup_densityStage_ne bpKey _ (by decide),
      dlookup_mpStage_ne lib casrn bpKey _ (by decide)]
    exact hv
  constructor
  · intro tb htb
    refine ⟨densityStage (mpStage lib casrn (bpStage lib casrn d1)), by rw [hrp], ?_⟩
    refine hfinal _ ?_
    unfold bpStage
    rw [hbp1, htb]
    simp only [Bool.false_eq_true, if_false]
    exact dlookup_dinsert_self bpKey _ d1
  · intro htb
    refine ⟨densityStage (mpStage lib casrn (bpStage lib casrn d1)), by rw [hrp], ?_⟩
    refine hfinal _ ?_
    unfold bpStage
    rw [hbp1, htb]
    simp only [Bool.false_eq_true, if_false]
    exact dlookup_dinsert_self bpKey _ d1

/-- C7 witness: with a library boiling point of 300 K and a detail response
without a boiling-point entry, "Boiling Point" is 300 - 273.15 rounded. -/
theorem bp_fallback_witness :
    ∃ d, (retrieve_properties wlib wdetailOk "64-17-5".data).1 = some d
      ∧ dlookup bpKey d = some (.num (pyRound3 ((300 : ℚ) - 27315/100))) := by
  have h := bp_fallback wlib wdetailOk "64-17-5".data "46.07".data
    [{ name := "Color".data, property := "colorless 1".data }]
    rfl (by decide)
    (by intro e he; simp at he; subst he; decide)
    (by intro e he; simp at he; subst he; decide)
  exact h.1 300 rfl

/-! ## Claim C10 -/

/-- C10: if any experimental-property entry's free-text value contains no
digit (hence no numeric substring), the `re.search` match fails, `.group()`
raises, and `retrieve_properties` returns the "no data" marker for the whole
identifier with an "Unexpected Error" diagnostic; the entire compound —
including all properties already extracted — is dropped from the final
report, not just that one property. -/
theorem nonnumeric_entry_drops_compound (lib : ChemLib)
    (detail : List Char → DetailResp) (casrn nm mm : List Char)
    (entries : List ExpProp) (e : ExpProp)
    (before after : List (List Char × List Char))
    (hd : detail casrn = .ok { molecularMass := some mm, experimentalProperties := some entries })
    (he : e ∈ entries)
    (hnd : ∀ c ∈ e.property, isDigitC c = false) :
    retrieve_properties lib detail casrn = (none, [Msg.unexpected])
    ∧ build_report (fun c => (retrieve_properties lib detail c).1)
        (before ++ (nm, casrn) :: after)
      = build_report (fun c => (retrieve_properties lib detail c).1) before
        ++ build_report (fun c => (retrieve_properties lib detail c).1) after := by
  have hrp : retrieve_properties lib detail casrn = (none, [Msg.unexpected]) :=
    retrieve_properties_entry_unexpected lib detail casrn mm entries e hd he
      (reSearchNum_none_of_no_digit hnd)
  exact ⟨hrp, build_report_skip _ nm casrn before after (by rw [hrp])⟩

/-! ## Claim C9 -/

/-- Under the idempotence preconditions, the only rule that can fire on the
name is rule 3, so one pass of the normalizer equals `sub3` alone. -/
theorem parse_locants_eq_sub3 (x : List Char) (h1 : hasR1 x = false)
    (h2 : hasR2 x = false) (h4 : hasR4 x = false) (h5 : hasR5 x = false) :
    parse_locants x = sub3 x := by
  unfold parse_locants sub4
  rw [sub1_id x h1, sub2_id x h2]
  rw [sub4go_id false (sub3 x) (hasR4_transfer x (sub3 x) (spaceHyph_sub3 x) h4)]
  rw [sub5_id (sub3 x) (hasR5_transfer x (sub3 x) (spaceHyph_sub3 x) h5)]

/-- C9: for every name containing no adjacent bare digit pair, no
digit-letter or letter-digit adjacency, no spaced-hex pattern, and no
`"hexanes"` substring, the Locant Normalizer is idempotent: applying it
twice yields the same result as applying it once (rule 3 may still fire on
such names, but its output triggers no further rule). -/
theorem parse_locants_idempotent (x : List Char) (h1 : hasR1 x = false)
    (h2 : hasR2 x = false) (h4 : hasR4 x = false) (h5 : hasR5 x = false) :
    parse_locants (parse_locants x) = parse_locants x := by
  have hsh := spaceHyph_sub3 x
  rw [parse_locants_eq_sub3 x h1 h2 h4 h5]
  rw [parse_locants_eq_sub3 (sub3 x) (hasR1_transfer x _ hsh h1)
    (hasR2_transfer x _ hsh h2) (hasR4_transfer x _ hsh h4)
    (hasR5_transfer x _ hsh h5)]
  rw [sub3_id (sub3 x) (hasR3_sub3 x)]

/-- C9 witness: `"1 a"` satisfies all side conditions while still being
changed by the normalizer (rule 3 fires), and a second pass is the
identity on the result. -/
theorem parse_locants_idempotent_witness :
    parse_locants (parse_locants "1 a".data) = parse_locants "1 a".data :=
  parse_locants_idempotent "1 a".data (by decide) (by decide) (by decide) (by decide)

/-- C10 witness: one entry with value `"red"` (no digits) drops the whole
compound even though the molecular mass was present. -/
theorem nonnumeric_entry_witness :
    retrieve_properties wlib wdetailNoNum "64-17-5".data = (none, [Msg.unexpected]) := by
  have h := nonnumeric_entry_drops_compound wlib wdetailNoNum "64-17-5".data
    "ethanol".data "46.07".data [{ name := "Color".data, property := "red".data }]
    { name := "Color".data, property := "red".data } [] []
    rfl (by simp) (by decide)
  exact h.1

end AutoChem
